import Mathlib

/-!
Shallow embedding of `klippy/queuelogger.py`: a background logging sink.

Producers enqueue log records through `QueueHandler.emit`; a single
background thread (`QueueListener._bg_thread`) pops records in FIFO order
and handles each one, stopping when it pops the sentinel that
`QueueListener.stop` enqueues.  `QueueListener` subclasses
`TimedRotatingFileHandler` (configured in `__init__`) and overrides
`doRollover` to append a banner built from the `rollover_info` dictionary.
Module-level functions `setup_bg_logging` / `clear_bg_logging` install and
remove the handler on the root logger.

The queue is modelled as the list of values popped from it, in FIFO order
(`SimpleQueue` guarantees FIFO delivery with a single consumer); the
`rollover_info` dict as an association list with the insertion/overwrite
semantics of a Python dict; the root logger and module globals as a record
of the fields the code touches.
-/

namespace QueueLogger

/-- A value travelling through `bg_queue`: either a real log record or the
distinguished `_SENTINEL` object enqueued by `stop()`. -/
inductive QItem (α : Type) where
  | record (r : α)
  | sentinel
deriving DecidableEq

/-- One `QueueHandler.emit(record)` call: `self._queue.put(record)` appends
the record at the tail of the FIFO queue. -/
def emitRecord {α : Type} (q : List (QItem α)) (r : α) : List (QItem α) :=
  q ++ [QItem.record r]

/-- A sequence of `emit` calls, oldest first. -/
def enqueueAll {α : Type} (q : List (QItem α)) (rs : List α) : List (QItem α) :=
  rs.foldl emitRecord q

/-- The enqueue half of `QueueListener.stop()`:
`self.bg_queue.put(self._SENTINEL)`. -/
def stop {α : Type} (q : List (QItem α)) : List (QItem α) :=
  q ++ [QItem.sentinel]

/-- The records handled by the `_bg_thread` loop, in the order it handles
them, given the FIFO sequence of values it pops: each popped record is
passed to `self.handle`; popping the sentinel breaks the loop. -/
def bgConsume {α : Type} : List (QItem α) → List α
  | [] => []
  | QItem.sentinel :: _ => []
  | QItem.record r :: rest => r :: bgConsume rest

/-- The sequence of values the `_bg_thread` loop actually pops from the
queue before exiting (everything up to and including the first sentinel). -/
def bgPopped {α : Type} : List (QItem α) → List (QItem α)
  | [] => []
  | QItem.sentinel :: _ => [QItem.sentinel]
  | QItem.record r :: rest => QItem.record r :: bgPopped rest

/-- Whether the `_bg_thread` loop breaks (the thread exits, so the `join`
inside `stop()` returns) given the FIFO sequence of queued values. -/
def bgTerminates {α : Type} : List (QItem α) → Bool
  | [] => false
  | QItem.sentinel :: _ => true
  | QItem.record _ :: rest => bgTerminates rest

/-- The fixed banner line written by `doRollover`:
`"=============== Log rollover at %s ===============" % time.asctime()`. -/
def rolloverLine (t : String) : String :=
  "=============== Log rollover at " ++ t ++ " ==============="

/-- Python dict lookup `self.rollover_info[n]` on the association-list
model of the dict. -/
def lookupInfo (info : List (String × String)) (n : String) : Option String :=
  (info.find? (fun p => p.1 == n)).map Prod.snd

/-- Python `sorted(self.rollover_info)`: the keys of the dict in ascending
lexicographic order. -/
def sortedNames (info : List (String × String)) : List String :=
  List.insertionSort (fun a b : String => a ≤ b) (info.map Prod.fst)

/-- The lines of the rollover banner record built by `doRollover`:
`[self.rollover_info[n] for n in sorted(self.rollover_info)]` followed by
the fixed rollover line (the record's msg is their "\n"-join). -/
def bannerLines (info : List (String × String)) (t : String) : List String :=
  (sortedNames info).filterMap (lookupInfo info) ++ [rolloverLine t]

/-- `QueueListener.set_rollover_info(name, info)`: `info is None` pops the
key (no error when absent); otherwise `self.rollover_info[name] = info`
overwrites in place when the key exists and appends otherwise (Python dict
assignment keeps insertion order). -/
def set_rollover_info (info : List (String × String)) (name : String)
    (v : Option String) : List (String × String) :=
  match v with
  | none => info.filter (fun p => !(p.1 == name))
  | some s =>
    if info.any (fun p => p.1 == name) then
      info.map (fun p => if p.1 == name then (name, s) else p)
    else
      info ++ [(name, s)]

/-- `QueueListener.clear_rollover_info()`: `self.rollover_info.clear()`. -/
def clear_rollover_info (_info : List (String × String)) :
    List (String × String) :=
  []

/-- The dict entry for key `n`, as a key-value pair: the pair the banner
comprehension reads when it visits key `n`. -/
def pairAt (info : List (String × String)) (n : String) :
    Option (String × String) :=
  (info.find? (fun p => p.1 == n)).map (fun p => (n, p.2))

/-- Seconds per unit of the `when` argument of
`logging.handlers.TimedRotatingFileHandler` (after `when.upper()`); `none`
for units the embedding does not need (weekly) or invalid units. -/
def trfhUnitSeconds : String → Option Nat
  | "S" => some 1
  | "M" => some 60
  | "H" => some (60 * 60)
  | "D" => some (60 * 60 * 24)
  | "MIDNIGHT" => some (60 * 60 * 24)
  | _ => none

/-- Python `str.upper()` on the ASCII strings used here: uppercase each
character. -/
def upperString (s : String) : String :=
  ⟨s.data.map Char.toUpper⟩

/-- The rollover period in seconds computed by
`TimedRotatingFileHandler.__init__`: unit seconds of `when.upper()` times
the `interval` argument. -/
def trfhIntervalSeconds (w : String) (interval : Nat) : Option Nat :=
  (trfhUnitSeconds (upperString w)).map (fun u => u * interval)

/-- The `when` argument `QueueListener.__init__` passes to its superclass:
`"S" if rotate_log_at_restart else "midnight"`. -/
def qlWhen (rotate_log_at_restart : Bool) : String :=
  if rotate_log_at_restart then "S" else "midnight"

/-- The `interval` argument `QueueListener.__init__` passes:
`60 * 60 * 24 if rotate_log_at_restart else 1`. -/
def qlIntervalArg (rotate_log_at_restart : Bool) : Nat :=
  if rotate_log_at_restart then 60 * 60 * 24 else 1

/-- The `backupCount` argument `QueueListener.__init__` passes: 5. -/
def qlBackupCount : Nat := 5

/-- The effective rollover period in seconds of a `QueueListener`. -/
def qlIntervalSeconds (rotate_log_at_restart : Bool) : Option Nat :=
  trfhIntervalSeconds (qlWhen rotate_log_at_restart)
    (qlIntervalArg rotate_log_at_restart)

/-- One write performed by the background writer through the file handler:
either an ordinary record or the rollover banner `doRollover` emits. -/
inductive WriteEvent (α : Type) where
  | banner (lines : List String)
  | record (r : α)
deriving DecidableEq

/-- Project a record write out of a write event. -/
def recordOf {α : Type} : WriteEvent α → Option α
  | WriteEvent.banner _ => none
  | WriteEvent.record r => some r

/-- The write trace of `self.handle` applied to each dequeued record in
order (`TimedRotatingFileHandler.emit`): before writing record number `i`,
if the rollover boundary has been crossed (`due i`), `doRollover` runs and
writes the banner `bl i` first; then the record itself is written.
Rollover changes which file receives the bytes but the writes stay in
dequeue order. -/
def writeTrace {α : Type} (due : Nat → Bool) (bl : Nat → List String) :
    List α → Nat → List (WriteEvent α)
  | [], _ => []
  | r :: rs, i =>
    (if due i then [WriteEvent.banner (bl i)] else []) ++
      WriteEvent.record r :: writeTrace due bl rs (i + 1)

/-- `logging.WARNING`. -/
def WARNING : Nat := 30

/-- `Logger.removeHandler`: removes the first occurrence of the handler
from the handler list, a no-op when it is absent. -/
def removeHandler (hs : List Nat) (h : Nat) : List Nat :=
  hs.erase h

/-- The module-level and root-logger state the setup/teardown functions
touch, together with the background machinery so frame effects can be
stated: the root logger's handler list (handlers as ids) and level, the
global `_MainQueueHandler` reference, the queue contents, whether the
background thread is running, and the writes performed so far. -/
structure LoggingState (α : Type) where
  rootHandlers : List Nat
  rootLevel : Nat
  mainQueueHandler : Option Nat
  bgQueue : List (QItem α)
  bgThreadRunning : Bool
  fileWrites : List (WriteEvent α)
deriving DecidableEq

/-- `clear_bg_logging()`: when `_MainQueueHandler is not None`, remove it
from the root logger, set the root level to `logging.WARNING` and reset
the global to `None`; otherwise do nothing. -/
def clear_bg_logging {α : Type} (s : LoggingState α) : LoggingState α :=
  match s.mainQueueHandler with
  | none => s
  | some h =>
    ⟨removeHandler s.rootHandlers h, WARNING, none, s.bgQueue,
      s.bgThreadRunning, s.fileWrites⟩

/-- `QueueHandler.emit` acting on the whole logging state: its body is the
single statement `self._queue.put(record)` (no formatting, no file write,
no failure path — `SimpleQueue.put` on an unbounded queue cannot raise). -/
def qhEmit {α : Type} (s : LoggingState α) (r : α) : LoggingState α :=
  ⟨s.rootHandlers, s.rootLevel, s.mainQueueHandler,
    emitRecord s.bgQueue r, s.bgThreadRunning, s.fileWrites⟩

/-! Helper lemmas. -/

theorem enqueueAll_eq_append {α : Type} (q : List (QItem α)) (rs : List α) :
    enqueueAll q rs = q ++ rs.map QItem.record := by
  induction rs generalizing q with
  | nil => simp [enqueueAll]
  | cons r rs ih =>
    simp only [enqueueAll, List.foldl_cons, List.map_cons]
    rw [show List.foldl emitRecord (emitRecord q r) rs =
      enqueueAll (emitRecord q r) rs from rfl, ih, emitRecord]
    simp

theorem bgConsume_append {α : Type} (rs : List α) (rest : List (QItem α)) :
    bgConsume (rs.map QItem.record ++ rest) = rs ++ bgConsume rest := by
  induction rs with
  | nil => simp
  | cons r rs ih => simp [bgConsume, ih]

theorem bgPopped_append {α : Type} (rs : List α) (rest : List (QItem α)) :
    bgPopped (rs.map QItem.record ++ rest) = rs.map QItem.record ++ bgPopped rest := by
  induction rs with
  | nil => simp
  | cons r rs ih => simp [bgPopped, ih]

theorem bgTerminates_append {α : Type} (rs : List α) (rest : List (QItem α)) :
    bgTerminates (rs.map QItem.record ++ rest) = bgTerminates rest := by
  induction rs with
  | nil => simp
  | cons r rs ih => simp [bgTerminates, ih]

theorem writeTrace_filterMap_recordOf {α : Type} (due : Nat → Bool)
    (bl : Nat → List String) (rs : List α) (i : Nat) :
    (writeTrace due bl rs i).filterMap recordOf = rs := by
  induction rs generalizing i with
  | nil => simp [writeTrace]
  | cons r rs ih =>
    by_cases h : due i <;>
      simp [writeTrace, h, recordOf, ih]

/-! Claim theorems. -/

/-- C1: every record enqueued (via the queue handler) before `stop()` is
handled by the background writer, in order, and the worker thread exits,
so the `join` inside `stop()` returns: with the queue holding the emitted
records followed by the sentinel `stop()` enqueues, the loop handles
exactly those records and terminates. -/
theorem stop_flushes_all_records {α : Type} (rs : List α) :
    bgConsume (stop (enqueueAll [] rs)) = rs ∧
    bgTerminates (stop (enqueueAll [] rs)) = true := by
  rw [enqueueAll_eq_append, List.nil_append, stop]
  constructor
  · rw [bgConsume_append]; simp [bgConsume]
  · rw [bgTerminates_append]; simp [bgTerminates]

/-- C2: the background writer writes the enqueued records in exactly their
FIFO enqueue order, whatever rollover schedule fires: for any pattern of
rollover triggers (`due`) and any banners they produce, the record writes
in the write trace are exactly the enqueued records in order — rollover
inserts banner writes but never reorders or drops a queued record. -/
theorem records_written_in_fifo_order_across_rollover {α : Type}
    (due : Nat → Bool) (bl : Nat → List String) (rs : List α) :
    (writeTrace due bl (bgConsume (stop (enqueueAll [] rs))) 0).filterMap
      recordOf = rs := by
  rw [enqueueAll_eq_append, List.nil_append, stop,
    bgConsume_append rs [QItem.sentinel]]
  simp only [bgConsume, List.append_nil]
  exact writeTrace_filterMap_recordOf due bl rs 0

/-- C3: the worker never processes anything after dequeuing the sentinel:
with records `xs` queued before a sentinel and arbitrary items `ys` after
it, exactly `xs` are handled, and the values popped from the queue are
`xs` followed by the sentinel — the sentinel is the last value consumed
and nothing enqueued after it is ever popped or handled. -/
theorem sentinel_terminates_consumption {α : Type} (xs : List α)
    (ys : List (QItem α)) :
    bgConsume (xs.map QItem.record ++ QItem.sentinel :: ys) = xs ∧
    bgPopped (xs.map QItem.record ++ QItem.sentinel :: ys) =
      xs.map QItem.record ++ [QItem.sentinel] := by
  constructor
  · rw [bgConsume_append]; simp [bgConsume]
  · rw [bgPopped_append]; simp [bgPopped]

/-- C4 counterexample: with `rotate_log_at_restart` true the handler is
configured with `when="S"` and `interval=60*60*24`, so the rollover period
is 86400 seconds — one full day, the same period as the daily mode — not a
short interval on the order of seconds (it is not even within a minute),
so under continuous logging a rotation is not triggered within seconds. -/
theorem rotate_at_restart_interval_not_seconds :
    qlIntervalSeconds true = some 86400 ∧ 86400 = 60 * 60 * 24 ∧
    ¬(86400 ≤ 60) := by
  refine ⟨by decide, by decide, by decide⟩

/-- C4 (amended): with `rotate_log_at_restart` true the rotation unit is
seconds (`when="S"`) with count 86400, i.e. a 24-hour rollover period
anchored at construction time, so each restart gets a fresh 24-hour
boundary instead of midnight alignment; with the flag false rollover is at
local midnight (`when="midnight"`, one-day period); in either mode the
superclass retains at most 5 backup files. -/
theorem rotation_policy_configuration :
    qlWhen true = "S" ∧ qlIntervalSeconds true = some (60 * 60 * 24) ∧
    qlWhen false = "midnight" ∧
    qlIntervalSeconds false = some (60 * 60 * 24) ∧
    qlBackupCount = 5 := by
  refine ⟨rfl, by decide, rfl, by decide, rfl⟩

/-- C7: `clear_rollover_info()` empties the registry, and a rollover
performed afterwards (with no intervening `set_rollover_info` calls)
produces a banner with no annotation lines — only the fixed rollover
line. -/
theorem clear_rollover_info_clears_banner (info : List (String × String))
    (t : String) :
    clear_rollover_info info = [] ∧
    bannerLines (clear_rollover_info info) t = [rolloverLine t] := by
  exact ⟨rfl, rfl⟩

/-- C9: `QueueHandler.emit(record)` appends the record at the tail of the
shared queue and changes nothing else: root handlers, root level, the
module global, the thread status and the file writes are untouched (no
formatting, no I/O), and the Lean function is total, mirroring that
`SimpleQueue.put` on an unbounded queue has no failure path. -/
theorem emit_only_enqueues {α : Type} (s : LoggingState α) (r : α) :
    (qhEmit s r).bgQueue = s.bgQueue ++ [QItem.record r] ∧
    (qhEmit s r).rootHandlers = s.rootHandlers ∧
    (qhEmit s r).rootLevel = s.rootLevel ∧
    (qhEmit s r).mainQueueHandler = s.mainQueueHandler ∧
    (qhEmit s r).bgThreadRunning = s.bgThreadRunning ∧
    (qhEmit s r).fileWrites = s.fileWrites := by
  exact ⟨rfl, rfl, rfl, rfl, rfl, rfl⟩

/-- C8: when a queue handler is installed, `clear_bg_logging()` removes it
from the root logger's handler list, resets the root level to
`logging.WARNING`, clears the module global, and changes nothing else: the
queue contents, the background thread status and the file writes are
untouched (it neither stops nor joins the worker). -/
theorem clear_bg_logging_detaches_and_resets {α : Type}
    (s : LoggingState α) (qh : Nat) (h : s.mainQueueHandler = some qh) :
    (clear_bg_logging s).rootHandlers = removeHandler s.rootHandlers qh ∧
    (clear_bg_logging s).rootLevel = WARNING ∧
    (clear_bg_logging s).mainQueueHandler = none ∧
    (clear_bg_logging s).bgQueue = s.bgQueue ∧
    (clear_bg_logging s).bgThreadRunning = s.bgThreadRunning ∧
    (clear_bg_logging s).fileWrites = s.fileWrites := by
  simp [clear_bg_logging, h]

theorem clear_bg_logging_detaches_and_resets_witness :
    ((⟨[7], 10, some 7, [QItem.record 3], true, []⟩ :
        LoggingState Nat).mainQueueHandler = some 7) ∧
    ((clear_bg_logging (⟨[7], 10, some 7, [QItem.record 3], true, []⟩ :
        LoggingState Nat)).rootHandlers = removeHandler [7] 7 ∧
      (clear_bg_logging (⟨[7], 10, some 7, [QItem.record 3], true, []⟩ :
        LoggingState Nat)).rootLevel = WARNING ∧
      (clear_bg_logging (⟨[7], 10, some 7, [QItem.record 3], true, []⟩ :
        LoggingState Nat)).mainQueueHandler = none ∧
      (clear_bg_logging (⟨[7], 10, some 7, [QItem.record 3], true, []⟩ :
        LoggingState Nat)).bgQueue = [QItem.record 3] ∧
      (clear_bg_logging (⟨[7], 10, some 7, [QItem.record 3], true, []⟩ :
        LoggingState Nat)).bgThreadRunning = true ∧
      (clear_bg_logging (⟨[7], 10, some 7, [QItem.record 3], true, []⟩ :
        LoggingState Nat)).fileWrites = []) :=
  ⟨rfl, clear_bg_logging_detaches_and_resets _ 7 rfl⟩

/-- C10: when no queue handler is installed (`_MainQueueHandler is None`),
`clear_bg_logging()` is a no-op: the whole state — root handler list and
level included — is unchanged, so teardown is safe to call repeatedly. -/
theorem clear_bg_logging_noop_when_uninstalled {α : Type}
    (s : LoggingState α) (h : s.mainQueueHandler = none) :
    clear_bg_logging s = s := by
  simp [clear_bg_logging, h]

theorem clear_bg_logging_noop_when_uninstalled_witness :
    ((⟨[1, 2], 10, none, [], true, []⟩ :
        LoggingState Nat).mainQueueHandler = none) ∧
    clear_bg_logging (⟨[1, 2], 10, none, [], true, []⟩ : LoggingState Nat) =
      (⟨[1, 2], 10, none, [], true, []⟩ : LoggingState Nat) :=
  ⟨rfl, clear_bg_logging_noop_when_uninstalled _ rfl⟩

theorem find?_overwrite_self (info : List (String × String)) (name s : String)
    (h : info.any (fun p => p.1 == name) = true) :
    (info.map (fun p => if p.1 == name then (name, s) else p)).find?
      (fun p => p.1 == name) = some (name, s) := by
  induction info with
  | nil => simp at h
  | cons p info ih =>
    simp only [List.map_cons]
    by_cases hp : p.1 = name
    · rw [if_pos (show (p.1 == name) = true by simpa using hp)]
      rw [List.find?_cons_of_pos]
      simp
    · have hb : (p.1 == name) = false := by simpa using hp
      rw [if_neg (show ¬(p.1 == name) = true by simp [hb])]
      rw [List.find?_cons_of_neg]
      · simp only [List.any_cons, hb, Bool.false_or] at h
        exact ih h
      · simp [hb]

theorem find?_map_preserved (info : List (String × String)) (name m s : String)
    (hm : m ≠ name) :
    (info.map (fun p => if p.1 == name then (name, s) else p)).find?
      (fun p => p.1 == m) = info.find? (fun p => p.1 == m) := by
  have hnm : (name == m) = false := by simpa using Ne.symm hm
  induction info with
  | nil => rfl
  | cons p info ih =>
    simp only [List.map_cons]
    by_cases hp : p.1 = name
    · rw [if_pos (show (p.1 == name) = true by simpa using hp)]
      have h1 : (p.1 == m) = false := by rw [hp]; exact hnm
      rw [List.find?_cons_of_neg]
      · rw [List.find?_cons_of_neg]
        · exact ih
        · simp [h1]
      · simp [hnm]
    · have hb : (p.1 == name) = false := by simpa using hp
      rw [if_neg (show ¬(p.1 == name) = true by simp [hb])]
      by_cases h2 : (p.1 == m) = true
      · rw [List.find?_cons_of_pos, List.find?_cons_of_pos]
        · exact h2
        · exact h2
      · rw [List.find?_cons_of_neg, List.find?_cons_of_neg]
        · exact ih
        · exact h2
        · exact h2

theorem find?_append_single_preserved (info : List (String × String))
    (x : String × String) (m : String) (hx : (x.1 == m) = false) :
    (info ++ [x]).find? (fun p => p.1 == m) =
      info.find? (fun p => p.1 == m) := by
  rw [List.find?_append]
  simp [hx]

theorem find?_filter_ne (info : List (String × String)) (name m : String)
    (hm : m ≠ name) :
    (info.filter (fun p => !(p.1 == name))).find? (fun p => p.1 == m) =
      info.find? (fun p => p.1 == m) := by
  induction info with
  | nil => rfl
  | cons p info ih =>
    rw [List.filter_cons]
    by_cases hp : p.1 = name
    · have h1 : (p.1 == m) = false := by
        rw [hp]; simpa using Ne.symm hm
      rw [if_neg (show ¬(!(p.1 == name)) = true by simp [hp])]
      rw [show List.find? (fun p => p.1 == m) (p :: info) =
          List.find? (fun p => p.1 == m) info from
        List.find?_cons_of_neg _ (by simp [h1])]
      exact ih
    · have hb : (p.1 == name) = false := by simpa using hp
      rw [if_pos (show (!(p.1 == name)) = true by simp [hb])]
      by_cases h2 : (p.1 == m) = true
      · rw [List.find?_cons_of_pos, List.find?_cons_of_pos]
        · exact h2
        · exact h2
      · rw [List.find?_cons_of_neg, List.find?_cons_of_neg]
        · exact ih
        · exact h2
        · exact h2

/-- C6: `set_rollover_info(name, info)` with a present value records or
overwrites the mapping for `name` (leaving every other key's lookup
unchanged); with `None` it removes the entry for `name` (every other
key's lookup unchanged), and when `name` is absent the removal is a no-op
that raises nothing and changes nothing. -/
theorem set_rollover_info_spec (info : List (String × String))
    (name : String) :
    (∀ s, lookupInfo (set_rollover_info info name (some s)) name = some s) ∧
    (∀ s m, m ≠ name →
      lookupInfo (set_rollover_info info name (some s)) m =
        lookupInfo info m) ∧
    lookupInfo (set_rollover_info info name none) name = none ∧
    (∀ m, m ≠ name →
      lookupInfo (set_rollover_info info name none) m = lookupInfo info m) ∧
    (lookupInfo info name = none → set_rollover_info info name none = info) := by
  refine ⟨?_, ?_, ?_, ?_, ?_⟩
  · intro s
    by_cases hany : info.any (fun p => p.1 == name) = true
    · simp only [set_rollover_info, if_pos hany, lookupInfo,
        find?_overwrite_self info name s hany, Option.map_some']
    · have hf : info.find? (fun p => p.1 == name) = none := by
        rw [List.find?_eq_none]
        intro x hx
        simp only [Bool.not_eq_true] at hany
        exact List.any_eq_false.1 hany x hx
      simp only [set_rollover_info, if_neg hany, lookupInfo,
        List.find?_append, hf, Option.none_or]
      simp
  · intro s m hm
    by_cases hany : info.any (fun p => p.1 == name) = true
    · simp only [set_rollover_info, if_pos hany, lookupInfo,
        find?_map_preserved info name m s hm]
    · have hx : ((name, s).1 == m) = false := by simpa using Ne.symm hm
      simp only [set_rollover_info, if_neg hany, lookupInfo,
        find?_append_single_preserved info (name, s) m hx]
  · have hf : (info.filter (fun p => !(p.1 == name))).find?
        (fun p => p.1 == name) = none := by
      rw [List.find?_eq_none]
      intro x hx
      have h4 : (!(x.1 == name)) = true := (List.mem_filter.1 hx).2
      simp only [Bool.not_eq_true'] at h4
      simp [h4]
    simp only [set_rollover_info, lookupInfo, hf, Option.map_none']
  · intro m hm
    simp only [set_rollover_info, lookupInfo, find?_filter_ne info name m hm]
  · intro h0
    have h1 : info.find? (fun p => p.1 == name) = none :=
      Option.map_eq_none'.1 h0
    have h2 := List.find?_eq_none.1 h1
    simp only [set_rollover_info]
    refine List.filter_eq_self.2 (fun a ha => ?_)
    have h3 : (a.1 == name) = false := Bool.eq_false_iff.2 (h2 a ha)
    simp [h3]

theorem set_rollover_info_spec_witness :
    lookupInfo (set_rollover_info [("a", "X")] "b" (some "Y")) "b" =
      some "Y" ∧
    lookupInfo (set_rollover_info [("a", "X")] "b" (some "Y")) "a" =
      lookupInfo [("a", "X")] "a" ∧
    lookupInfo (set_rollover_info [("a", "X")] "b" none) "b" = none ∧
    lookupInfo (set_rollover_info [("a", "X")] "b" none) "a" =
      lookupInfo [("a", "X")] "a" ∧
    set_rollover_info [("a", "X")] "b" none = [("a", "X")] :=
  ⟨(set_rollover_info_spec [("a", "X")] "b").1 "Y",
   (set_rollover_info_spec [("a", "X")] "b").2.1 "Y" "a" (by decide),
   (set_rollover_info_spec [("a", "X")] "b").2.2.1,
   (set_rollover_info_spec [("a", "X")] "b").2.2.2.1 "a" (by decide),
   (set_rollover_info_spec [("a", "X")] "b").2.2.2.2 (by decide)⟩

theorem pairAt_of_mem {info : List (String × String)} {n : String}
    (hn : n ∈ info.map Prod.fst) :
    ∃ v, info.find? (fun p => p.1 == n) = some (n, v) := by
  obtain ⟨p, hp, hfst⟩ := List.mem_map.1 hn
  have hsome : (info.find? (fun p => p.1 == n)).isSome := by
    rw [List.find?_isSome]
    exact ⟨p, hp, by simp [hfst]⟩
  obtain ⟨q, hq⟩ := Option.isSome_iff_exists.1 hsome
  have hq1 : q.1 = n := by simpa using List.find?_some hq
  refine ⟨q.2, ?_⟩
  rw [hq]
  cases q with
  | mk a b => simp only at hq1; rw [hq1]

theorem filterMap_pairAt (info : List (String × String)) :
    ∀ ns : List String, (∀ n ∈ ns, n ∈ info.map Prod.fst) →
      (ns.filterMap (pairAt info)).map Prod.fst = ns ∧
      (ns.filterMap (pairAt info)).map Prod.snd =
        ns.filterMap (lookupInfo info) := by
  intro ns
  induction ns with
  | nil => intro _; exact ⟨rfl, rfl⟩
  | cons n ns ih =>
    intro h
    obtain ⟨v, hv⟩ := pairAt_of_mem (h n (List.mem_cons_self n ns))
    have hpa : pairAt info n = some (n, v) := by
      rw [pairAt, hv]; rfl
    have hlk : lookupInfo info n = some v := by
      rw [lookupInfo, hv]; rfl
    obtain ⟨ih1, ih2⟩ := ih (fun m hm => h m (List.mem_cons_of_mem _ hm))
    constructor
    · simp [List.filterMap_cons, hpa, ih1]
    · simp [List.filterMap_cons, hpa, hlk, ih2]

theorem mem_filterMap_pairAt (info : List (String × String))
    (hnd : (info.map Prod.fst).Nodup) (ns : List String)
    (hns : ∀ n, n ∈ ns ↔ n ∈ info.map Prod.fst) (p : String × String) :
    p ∈ ns.filterMap (pairAt info) ↔ p ∈ info := by
  rw [List.mem_filterMap]
  constructor
  · rintro ⟨n, hn, hpn⟩
    obtain ⟨v, hv⟩ := pairAt_of_mem ((hns n).1 hn)
    rw [pairAt, hv] at hpn
    simp only [Option.map_some'] at hpn
    have hp2 : (n, v) = p := by injection hpn
    rw [← hp2]
    exact List.mem_of_find?_eq_some hv
  · intro hp
    have h1 : p.1 ∈ info.map Prod.fst := List.mem_map.2 ⟨p, hp, rfl⟩
    obtain ⟨v, hv⟩ := pairAt_of_mem h1
    have hmem : (p.1, v) ∈ info := List.mem_of_find?_eq_some hv
    have hpq : (p.1, v) = p := List.inj_on_of_nodup_map hnd hmem hp rfl
    refine ⟨p.1, (hns p.1).2 h1, ?_⟩
    rw [pairAt, hv]
    simp only [Option.map_some']
    exact congrArg some hpq

/-- C5: for a registry with no duplicate names, the rollover banner is
the registry's entries' values, one line per entry, ordered by ascending
annotation name regardless of insertion order (`ps` is a permutation of
the registry whose names are sorted), followed by the single fixed line
`"=============== Log rollover at <timestamp> ==============="` built
from the local human-readable time of the rollover. -/
theorem banner_values_sorted_by_name (info : List (String × String))
    (t : String) (hnd : (info.map Prod.fst).Nodup) :
    ∃ ps : List (String × String),
      ps.Perm info ∧
      (ps.map Prod.fst).Sorted (fun a b : String => a ≤ b) ∧
      bannerLines info t = ps.map Prod.snd ++ [rolloverLine t] := by
  have hperm : (sortedNames info).Perm (info.map Prod.fst) :=
    List.perm_insertionSort _ _
  have hsub : ∀ n ∈ sortedNames info, n ∈ info.map Prod.fst :=
    fun n hn => hperm.mem_iff.1 hn
  obtain ⟨hfst, hsnd⟩ := filterMap_pairAt info (sortedNames info) hsub
  refine ⟨(sortedNames info).filterMap (pairAt info), ?_, ?_, ?_⟩
  · have hnd2 : ((sortedNames info).filterMap (pairAt info)).Nodup := by
      refine List.Nodup.of_map Prod.fst ?_
      rw [hfst]
      exact hperm.nodup_iff.2 hnd
    have hnd3 : info.Nodup := List.Nodup.of_map Prod.fst hnd
    exact (List.perm_ext_iff_of_nodup hnd2 hnd3).2
      (mem_filterMap_pairAt info hnd (sortedNames info)
        (fun n => hperm.mem_iff))
  · rw [hfst, sortedNames]
    exact List.sorted_insertionSort _ _
  · simp only [bannerLines]
    rw [hsnd]

theorem banner_values_sorted_by_name_witness :
    (([("b", "Y"), ("a", "X")] : List (String × String)).map
        Prod.fst).Nodup ∧
    ∃ ps : List (String × String),
      ps.Perm [("b", "Y"), ("a", "X")] ∧
      (ps.map Prod.fst).Sorted (fun a b : String => a ≤ b) ∧
      bannerLines [("b", "Y"), ("a", "X")] "T" =
        ps.map Prod.snd ++ [rolloverLine "T"] :=
  ⟨by decide,
    banner_values_sorted_by_name [("b", "Y"), ("a", "X")] "T"
      (by decide)⟩

end QueueLogger
